import Mathlib

/-!
Verification of the exactly-protocol liquidation bot core against its
natural-language specification.

The development shallowly embeds the Rust sources:
  * `src/market.rs`      — pure accrual math over a mirrored `Market`;
  * `src/protocol/liquidation.rs` — planner (`pick_markets`,
    `calculate_close_factor`, `max_repay_assets`, `get_flash_pair`) and the
    dispatcher loop (`run`);
  * `src/exactly_events.rs`       — log decoding into the event union.

Machine integers (`U256`, `u32`, `u8`) are embedded as `Nat` (with explicit
`% 2 ^ w` where wrap-around matters); `I256` values as `Int`.  Unsigned
subtraction and division in `ethers` panic on underflow and on a zero
divisor, so code paths where such a panic is reachable are embedded as
`Option`-valued computations, `none` standing for the abort.  Panics that a
claim's own hypotheses exclude (documented per definition) are embedded with
truncated `Nat` subtraction, exactly as the spec's plain-subtraction wording.
-/

set_option maxRecDepth 10000

/-! ## Fixed-point arithmetic

Modelled from the spec: the repository's `fixed_point_math` module is not
part of the provided sources (only `src/protocol/mod.rs` declares it), so
the WAD operations are taken from spec §4.1: `mul_wad_down(a,b) = (a·b)/WAD`
truncating, `mul_wad_up` its ceiling, `div_wad_down(a,b) = (a·WAD)/b`,
`div_wad_up` its ceiling, and `mul_div_down/up(a,b,c)` the one-step forms. -/

def WAD : ℕ := 10 ^ 18

def mulWadDown (a b : ℕ) : ℕ := a * b / WAD

def mulWadUp (a b : ℕ) : ℕ := (a * b + (WAD - 1)) / WAD

def divWadDown (a b : ℕ) : ℕ := a * WAD / b

def divWadUp (a b : ℕ) : ℕ := (a * WAD + (b - 1)) / b

def mulDivDown (a b c : ℕ) : ℕ := a * b / c

def mulDivUp (a b c : ℕ) : ℕ := (a * b + (c - 1)) / c

/-- Checked subtraction: `ethers` `U256` subtraction panics on underflow
(`a - b` with `a < b`); `none` models the abort. -/
def sub? (a b : ℕ) : Option ℕ := if a < b then none else some (a - b)

/-- Checked `div_wad_down`: division by zero panics in `ethers`. -/
def divWadDown? (a b : ℕ) : Option ℕ := if b = 0 then none else some (divWadDown a b)

/-- Checked `div_wad_up`: division by zero panics in `ethers`. -/
def divWadUp? (a b : ℕ) : Option ℕ := if b = 0 then none else some (divWadUp a b)

/-- Checked `mul_div_down`: division by zero panics in `ethers`. -/
def mulDivDown? (a b c : ℕ) : Option ℕ := if c = 0 then none else some (mulDivDown a b c)

/-- `I256::from_raw`: reinterpret a `U256` bit pattern (a `Nat` below
`2 ^ 256`) as a two's-complement signed value. -/
def i256ofRaw (n : ℕ) : ℤ := if n < 2 ^ 255 then (n : ℤ) else (n : ℤ) - 2 ^ 256

/-- `I256::into_raw`: the `U256` bit pattern of a signed value. -/
def intoRaw (z : ℤ) : ℕ := (z % 2 ^ 256).toNat

/-- Modelled from the spec: signed `mul_div_down` from the missing
`fixed_point_math` module; Rust/EVM signed division truncates toward zero
(`Int.div`). -/
def sMulDivDown (a : ℕ) (b : ℤ) (c : ℕ) : ℤ := Int.tdiv ((a : ℤ) * b) (c : ℤ)

/-! ## Market (`src/market.rs`)

`INTERVAL = 4 * 7 * 86_400` as in the source.  The embedded `Market` keeps
the numeric mirror state read by the accrual functions; the RPC-facing
fields of the Rust struct (`contract`, `interest_rate_model`, `price_feed`,
`asset`, …) do not enter any embedded computation and are omitted.
`fixed_pools` (a `HashMap<U256, FixedPool>` in the source) is embedded as an
association list queried by maturity. -/

def INTERVAL : ℕ := 4 * 7 * 86400

structure FixedPool where
  borrowed : ℕ
  supplied : ℕ
  unassigned_earnings : ℕ
  last_accrual : ℕ
deriving DecidableEq, Repr

structure Market where
  price : ℕ
  penalty_rate : ℕ
  adjust_factor : ℕ
  decimals : ℕ
  floating_assets : ℕ
  floating_deposit_shares : ℕ
  floating_debt : ℕ
  floating_borrow_shares : ℕ
  floating_utilization : ℕ
  last_floating_debt_update : ℕ
  max_future_pools : ℕ
  fixed_pools : List (ℕ × FixedPool)
  smart_pool_fee_rate : ℕ
  earnings_accumulator : ℕ
  last_accumulator_accrual : ℕ
  earnings_accumulator_smooth_factor : ℕ
  floating_full_utilization : ℕ
  floating_a : ℕ
  floating_b : ℤ
  floating_max_utilization : ℕ
  treasury_fee_rate : ℕ
deriving Repr

/-- `Market::new`: every mirrored quantity starts at its default (zero). -/
def Market.new : Market :=
  ⟨0, 0, 0, 0, 0, 0, 0, 0, 0, 0, 0, [], 0, 0, 0, 0, 0, 0, 0, 0, 0⟩

/-- Lookup in the embedded `fixed_pools` map. -/
def lookupPool (maturity : ℕ) : List (ℕ × FixedPool) → Option FixedPool
  | [] => none
  | (k, fp) :: rest => if maturity = k then some fp else lookupPool maturity rest

/-- `Market::accumulated_earnings`.  `elapsed = timestamp -
last_accumulator_accrual` is a panicking `U256` subtraction, hence `sub?`;
`INTERVAL * max_future_pools` is `u32` arithmetic in the source but
`max_future_pools` is a `u8`, so the product never wraps. -/
def Market.accumulated_earnings (m : Market) (timestamp : ℕ) : Option ℕ := do
  let elapsed ← sub? timestamp m.last_accumulator_accrual
  if 0 < elapsed then
    some (mulDivDown m.earnings_accumulator elapsed
      (elapsed + mulWadDown m.earnings_accumulator_smooth_factor
        (INTERVAL * m.max_future_pools)))
  else
    some 0

/-- `Market::floating_borrow_rate`.  `ln_wad` lives in the missing
`fixed_point_math` module, so the function is parametrized by it; no claim
below depends on its value.  All `U256` subtractions and divisions are
checked, modelling the `ethers` panics. -/
def Market.floating_borrow_rate (lnW : ℕ → ℤ) (m : Market)
    (utilizationBefore utilizationAfter : ℕ) : Option ℕ := do
  let precisionThreshold : ℕ := 10 ^ 13 * 75
  let alpha ← sub? m.floating_max_utilization utilizationBefore
  let delta ← sub? utilizationAfter utilizationBefore
  let test ← divWadDown? delta alpha
  let r ←
    if test < precisionThreshold then do
      let t1 ← divWadDown? m.floating_a alpha
      let midDenom ← sub? m.floating_max_utilization
        ((utilizationAfter + utilizationBefore) / 2)
      let t2 ← mulDivDown? m.floating_a (10 ^ 18 * 4) midDenom
      let endDenom ← sub? m.floating_max_utilization utilizationAfter
      let t3 ← divWadDown? m.floating_a endDenom
      some (i256ofRaw ((t1 + t2 + t3) / 6))
    else do
      let endDenom ← sub? m.floating_max_utilization utilizationAfter
      let lnArg ← divWadDown? alpha endDenom
      some (sMulDivDown m.floating_a (lnW lnArg) delta)
  some (intoRaw (r + m.floating_b))

/-- `Market::total_floating_borrow_assets`.  `timestamp -
last_floating_debt_update` is a panicking `U256` subtraction. -/
def Market.total_floating_borrow_assets (lnW : ℕ → ℤ) (m : Market)
    (timestamp : ℕ) : Option ℕ := do
  let newFloatingUtilization :=
    if 0 < m.floating_assets then divWadUp m.floating_debt m.floating_assets
    else 0
  let rate ← m.floating_borrow_rate lnW
    (min m.floating_utilization newFloatingUtilization)
    (max m.floating_utilization newFloatingUtilization)
  let dt ← sub? timestamp m.last_floating_debt_update
  let newDebt := mulWadDown m.floating_debt
    (mulDivDown rate dt (365 * 24 * 60 * 60))
  some (m.floating_debt + newDebt)

/-- `Market::total_assets`.  `latest` is obtained through `U256::as_u32`,
which panics above `u32::MAX`; `INTERVAL * i` is `u32` arithmetic (release
profile wraps mod `2 ^ 32`); `timestamp - fixed_pool.last_accrual` is an
unguarded panicking subtraction, while `maturity - last_accrual` is guarded
by `maturity > last_accrual`. -/
def Market.total_assets (lnW : ℕ → ℤ) (m : Market) (timestamp : ℕ) :
    Option ℕ := do
  let latest := (timestamp - timestamp % INTERVAL) / INTERVAL
  if 2 ^ 32 ≤ latest then none
  else do
    let smartPoolEarnings ← (List.range (m.max_future_pools + 1)).foldlM
      (fun acc j => do
        let i := latest + j
        let maturity := INTERVAL * i % 2 ^ 32
        match lookupPool maturity m.fixed_pools with
        | none => some acc
        | some fixedPool =>
          if fixedPool.last_accrual < maturity then
            if timestamp < maturity then do
              let dt ← sub? timestamp fixedPool.last_accrual
              some (acc + mulDivDown fixedPool.unassigned_earnings dt
                (maturity - fixedPool.last_accrual))
            else
              some (acc + fixedPool.unassigned_earnings)
          else
            some acc) 0
    let accumulated ← m.accumulated_earnings timestamp
    let tfba ← m.total_floating_borrow_assets lnW timestamp
    let extra ← sub? tfba m.floating_debt
    let oneMinusFee ← sub? (10 ^ 18) m.treasury_fee_rate
    some (m.floating_assets + smartPoolEarnings + accumulated
      + mulWadDown extra oneMinusFee)

/-! ## Liquidation planner (`src/protocol/liquidation.rs`)

Addresses are embedded as `Nat`.  `Repay` mirrors the Rust struct
field-for-field; `LiquidationIncentive` and the `MarketAccount` previewer
rows come from generated ABI bindings that are not under the provided
sources, so their fields are modelled from the spec (§3, §4.5): a two-part
incentive `{liquidator, lenders}` and per-market position rows carrying the
quantities `pick_markets` reads. -/

structure Repay where
  price : ℕ
  decimals : ℕ
  market_to_seize : Option ℕ
  market_to_seize_value : ℕ
  market_to_repay : Option ℕ
  market_to_liquidate_debt : ℕ
  total_value_collateral : ℕ
  total_adjusted_collateral : ℕ
  total_value_debt : ℕ
  total_adjusted_debt : ℕ
  repay_asset_address : ℕ
  collateral_asset_address : ℕ
deriving DecidableEq, Repr

/-- `Repay::default()`: zeroed totals, no selected markets. -/
def Repay.empty : Repay := ⟨0, 0, none, 0, none, 0, 0, 0, 0, 0, 0, 0⟩

structure LiquidationIncentive where
  liquidator : ℕ
  lenders : ℕ
deriving DecidableEq, Repr

structure PositionTotal where
  principal : ℕ
  fee : ℕ
deriving DecidableEq, Repr

structure FixedPosition where
  maturity : ℕ
  position : PositionTotal
deriving DecidableEq, Repr

structure MarketAccount where
  market : ℕ
  decimals : ℕ
  is_collateral : Bool
  floating_deposit_assets : ℕ
  floating_borrow_assets : ℕ
  adjust_factor : ℕ
  penalty_rate : ℕ
  fixed_borrow_positions : List FixedPosition
deriving DecidableEq, Repr

/-- One step of the fixed-borrow accumulation inside `pick_markets`: add
`principal + fee`, and past maturity also
`borrowed.mul_wad_down((timestamp - maturity) * penalty_rate)`; the
subtraction is guarded by `maturity < timestamp`. -/
def fixedDebtStep (penaltyRate timestamp acc : ℕ) (fp : FixedPosition) : ℕ :=
  let borrowed := fp.position.principal + fp.position.fee
  let acc := acc + borrowed
  if fp.maturity < timestamp then
    acc + mulWadDown borrowed ((timestamp - fp.maturity) * penaltyRate)
  else
    acc

/-- The `market_debt_assets` accumulation of `pick_markets`: the fixed
positions folded by `fixedDebtStep`, then `+ floating_borrow_assets`. -/
def MarketAccount.marketDebtAssets (ma : MarketAccount) (timestamp : ℕ) : ℕ :=
  (ma.fixed_borrow_positions.foldl (fixedDebtStep ma.penalty_rate timestamp) 0)
    + ma.floating_borrow_assets

/-- `Liquidation::pick_markets`.  The `prices` and `assets` maps are total
functions (the source indexes `HashMap`s that the caller fills for every
market).  The two `>=` comparisons keep the source's last-scanned-wins
tie-break.  `market_debt_value.div_wad_up(adjust_factor)` divides by zero —
and the program panics — when a market's `adjust_factor` is 0, so that
division is checked and the whole scan is `Option`-valued, `none` standing
for the abort; the remaining divisors (`WAD` and `10 ^ decimals`) are
nonzero constants. -/
def pick_markets (marketAccount : List MarketAccount) (prices : ℕ → ℕ)
    (timestamp : ℕ) (assets : ℕ → ℕ) : Option Repay :=
  marketAccount.foldlM (fun repay market => do
    let repay :=
      if market.is_collateral then
        let collateralValue := mulDivDown market.floating_deposit_assets
          (prices market.market) (10 ^ market.decimals)
        let adjustedCollateral := mulWadDown collateralValue market.adjust_factor
        let repay := { repay with
          total_value_collateral := repay.total_value_collateral + collateralValue,
          total_adjusted_collateral :=
            repay.total_adjusted_collateral + adjustedCollateral }
        if repay.market_to_seize_value ≤ adjustedCollateral then
          { repay with
            market_to_seize_value := adjustedCollateral,
            market_to_seize := some market.market,
            collateral_asset_address := assets market.market }
        else repay
      else repay
    let marketDebtAssets := market.marketDebtAssets timestamp
    let marketDebtValue := mulDivUp marketDebtAssets (prices market.market)
      (10 ^ market.decimals)
    let adjustedDebt ← divWadUp? marketDebtValue market.adjust_factor
    let repay := { repay with
      total_value_debt := repay.total_value_debt + marketDebtValue,
      total_adjusted_debt := repay.total_adjusted_debt + adjustedDebt }
    if repay.market_to_liquidate_debt ≤ adjustedDebt then
      some { repay with
        market_to_liquidate_debt := adjustedDebt,
        market_to_repay := some market.market,
        price := prices market.market,
        decimals := market.decimals,
        repay_asset_address := assets market.market }
    else some repay) Repay.empty

/-- `Liquidation::calculate_close_factor`.  `target_health` is
`exp10(16) * 125`, i.e. `1.25` WAD.  The denominator product of the ratio
uses `mul_wad_up` in the source; both subtractions are plain (in the
executions the claims quantify over they do not underflow, and truncated
`Nat` subtraction coincides with `U256` subtraction there). -/
def calculate_close_factor (repay : Repay) (li : LiquidationIncentive) : ℕ :=
  let targetHealth := 10 ^ 16 * 125
  let adjustFactor := divWadUp
    (mulWadDown repay.total_adjusted_collateral repay.total_value_debt)
    (mulWadUp repay.total_adjusted_debt repay.total_value_collateral)
  divWadUp
    (targetHealth - divWadUp repay.total_adjusted_collateral repay.total_adjusted_debt)
    (targetHealth - mulWadDown adjustFactor
      (WAD + li.liquidator + li.lenders + mulWadDown li.liquidator li.lenders))

/-- The literal `U256::MAX / WAD` threshold in `max_repay_assets`. -/
def maxLiquidatorThreshold : ℕ :=
  115792089237316195423570985008687907853269984665640564039457

/-- `Liquidation::max_repay_assets`. -/
def max_repay_assets (repay : Repay) (li : LiquidationIncentive)
    (maxLiquidatorAssets : ℕ) : ℕ :=
  let closeFactor := calculate_close_factor repay li
  min
    (min
      (mulDivUp
        (min
          (mulWadUp repay.total_value_debt (min WAD closeFactor))
          (divWadUp repay.market_to_seize_value
            (WAD + li.liquidator + li.lenders)))
        (10 ^ repay.decimals) repay.price)
      (if maxLiquidatorAssets < maxLiquidatorThreshold then
        divWadDown maxLiquidatorAssets (WAD + li.lenders)
      else
        maxLiquidatorAssets))
    repay.market_to_liquidate_debt

/-- `ordered_addresses`. -/
def ordered_addresses (token0 token1 : ℕ) : ℕ × ℕ :=
  if token0 < token1 then (token0, token1) else (token1, token0)

/-- Lookup in the embedded token-pair catalog (a `HashMap` keyed by ordered
address pairs in the source). -/
def plookup (k : ℕ × ℕ) : List ((ℕ × ℕ) × List ℕ) → Option (List ℕ)
  | [] => none
  | (k', fees) :: rest => if k = k' then some fees else plookup k rest

/-- `BinaryHeap<Reverse<u32>>::peek`: the smallest stored fee. -/
def heapPeek (fees : List ℕ) : Option ℕ := fees.min?

/-- `Liquidation::get_flash_pair`.  In the cross-asset branch the source
calls `pair.peek().unwrap()`, which panics on an empty heap; `none` models
that abort.  The same-asset branch scans `tokens` with a checked peek,
starting from `(Address::zero(), u32::MAX)`. -/
def get_flash_pair (repay : Repay) (tokenPairs : List ((ℕ × ℕ) × List ℕ))
    (tokens : List ℕ) : Option (ℕ × ℕ) :=
  let collateral := repay.collateral_asset_address
  let rep := repay.repay_asset_address
  if collateral ≠ rep then
    match plookup (ordered_addresses collateral rep) tokenPairs with
    | some fees => (heapPeek fees).map (fun fee => (collateral, fee))
    | none => some (collateral, 0)
  else
    some (tokens.foldl (fun best token =>
      if token ≠ collateral then
        match plookup (ordered_addresses token collateral) tokenPairs with
        | some fees =>
          match heapPeek fees with
          | some rate => if rate < best.2 then (token, rate) else best
          | none => best
        | none => best
      else best) (0, 4294967295))

/-! ## Liquidation dispatcher (`Liquidation::run`)

The candidate table (`HashMap<Address, (Account, Repay, u32)>`) is embedded
as an association list with distinct keys; the snapshot `(Account, Repay)`
is an arbitrary type `α` (its contents never influence the table logic).
Batches arrive as association lists (`data.liquidations` is a `HashMap`, so
its keys are distinct).  The `Err(timeout)` arm of the loop is embedded as a
step on a dispatcher state holding the table and the live iterator. -/

/-- Lookup in the embedded candidate table. -/
def tlookup {α : Type} (k : ℕ) : List (ℕ × α × ℕ) → Option (α × ℕ)
  | [] => none
  | (k', v, a) :: rest => if k = k' then some (v, a) else tlookup k rest

/-- Lookup in an inbound batch. -/
def blookup {α : Type} (k : ℕ) : List (ℕ × α) → Option α
  | [] => none
  | (k', v) :: rest => if k = k' then some v else blookup k rest

/-- The `LiquidationAction::Update` arm: rebuild the table from the batch;
the age is `previous age (0 if absent) + 1` when `backup > 0`, else `0`. -/
def applyUpdate {α : Type} (backup : ℕ) (incoming : List (ℕ × α))
    (table : List (ℕ × α × ℕ)) : List (ℕ × α × ℕ) :=
  incoming.map (fun kv =>
    (kv.1, kv.2,
      if 0 < backup then ((tlookup kv.1 table).map (fun e => e.2)).getD 0 + 1
      else 0))

/-- Bump the age of key `k` by one (`liquidation.2 += 1`). -/
def bumpAge {α : Type} (k : ℕ) (table : List (ℕ × α × ℕ)) :
    List (ℕ × α × ℕ) :=
  table.map (fun e => if e.1 = k then (e.1, e.2.1, e.2.2 + 1) else e)

/-- One `entry(k).or_insert((account, repay, 0))` followed by
`if backup > 0 { age += 1 }`: an existing entry keeps its snapshot and only
ages; a fresh entry starts at age `0` before the increment. -/
def upsertOne {α : Type} (backup : ℕ) (table : List (ℕ × α × ℕ)) (k : ℕ)
    (v : α) : List (ℕ × α × ℕ) :=
  let table' := if (tlookup k table).isSome then table else table ++ [(k, v, 0)]
  if 0 < backup then bumpAge k table' else table'

/-- The `LiquidationAction::Insert` arm: drain the batch into the table. -/
def applyInsert {α : Type} (backup : ℕ) (incoming : List (ℕ × α))
    (table : List (ℕ × α × ℕ)) : List (ℕ × α × ℕ) :=
  incoming.foldl (fun t kv => upsertOne backup t kv.1 kv.2) table

inductive Inbound (α : Type) where
  | update (incoming : List (ℕ × α))
  | insert (incoming : List (ℕ × α))
  | timeout
deriving Repr

inductive Outcome where
  | fired (account : ℕ) (age : ℕ)
  | skippedYoung (account : ℕ) (age : ℕ)
  | idle
deriving DecidableEq, Repr

structure DState (α : Type) where
  table : List (ℕ × α × ℕ)
  iter : Option (List (ℕ × α × ℕ))

/-- One turn of the `loop` in `Liquidation::run`: a received batch replaces
or upserts the table and restarts the iterator; a receive timeout advances
the iterator and fires the next candidate only when
`backup == 0 || age > backup`, otherwise logs "not old enough" and skips
(the table itself is untouched on the timeout path). -/
def runStep {α : Type} (backup : ℕ) (s : DState α) (e : Inbound α) :
    DState α × Outcome :=
  match e with
  | .update incoming =>
    let t := applyUpdate backup incoming s.table
    (⟨t, some t⟩, .idle)
  | .insert incoming =>
    let t := applyInsert backup incoming s.table
    (⟨t, some t⟩, .idle)
  | .timeout =>
    match s.iter with
    | none => (s, .idle)
    | some [] => (⟨s.table, none⟩, .idle)
    | some ((k, _, age) :: rest) =>
      if backup = 0 ∨ backup < age then
        (⟨s.table, some rest⟩, .fired k age)
      else
        (⟨s.table, some rest⟩, .skippedYoung k age)

/-! ## Event decoding (`src/exactly_events.rs`)

The event structs come from generated ABI bindings that are not under the
provided sources.  Modelled from the spec (§4.3, §9): each generated
`decode_log` filter accepts a log exactly when the log's first topic equals
the filter's event signature hash; the concrete 256-bit hash values are
irrelevant to the control flow and are modelled as distinct abstract tokens,
listed in the order the source tries them.  The five catalog topics are the
verbatim constants of the source.  The decoded union is collapsed to which
group matched: a known variant (tagged by its signature), `UpdateLidoPrice`,
or `Ignore` (both carrying `log.topics.get(0)`). -/

structure RawLog where
  topics : List ℕ
deriving DecidableEq, Repr

inductive ExactlyEvent where
  | known (sig : ℕ)
  | updateLidoPrice (topic0 : Option ℕ)
  | ignore (topic0 : Option ℕ)
deriving DecidableEq, Repr

/-- Modelled from the spec: a generated filter with signature `sig` decodes
`log` iff the log's first topic is `sig`. -/
def matchesSig (sig : ℕ) (log : RawLog) : Bool := log.topics.head? = some sig

/-- The 41 union filters, in the order `decode_log` tries them
(`RoleGranted` … `NewTransmission`), as abstract signature tokens. -/
def unionEventSigs : List ℕ := List.range' 1 41

/-- The 10 Lido filters mapped to `UpdateLidoPrice`
(`ElrewardsReceived` … `Withdrawal`). -/
def lidoUpdateSigs : List ℕ := List.range' 101 10

/-- The 10 Lido filters mapped to `Ignore`
(`Submitted` … `WithdrawalCredentialsSet`). -/
def lidoIgnoreSigs : List ℕ := List.range' 201 10

/-- The static ignore catalog: the five `H256` constants of the source. -/
def ignoredTopics : List ℕ :=
  [0xe8ec50e5150ae28ae37e493ff389ffab7ffaec2dc4dccfca03f12a3de29d12b2,
   0xd0d9486a2c673e2a4b57fc82e4c8a556b3e2b82dd5db07e2c04a920ca0f469b6,
   0xd0b1dac935d85bd54cf0a33b0d41d39f8cf53a968465fc7ea2377526b8ac712c,
   0x25d719d88a4512dd76c7442b910a83360845505894eb444ef299409e180f8fb9,
   0x3ea16a923ff4b1df6526e854c9e3a995c43385d70e73359e10623c74f0b52037]

/-- `ExactlyEvents::decode_log`: try every union filter in order, then the
Lido price-refresh filters, then the explicit Ignore filters; last, if ANY
topic of the log appears in the static catalog, return `Ignore`; otherwise
fail with `InvalidData` (modelled as `Except.error ()`). -/
def decode_log (log : RawLog) : Except Unit ExactlyEvent :=
  match unionEventSigs.find? (fun sig => matchesSig sig log) with
  | some sig => .ok (.known sig)
  | none =>
    if lidoUpdateSigs.any (fun sig => matchesSig sig log) then
      .ok (.updateLidoPrice log.topics.head?)
    else if lidoIgnoreSigs.any (fun sig => matchesSig sig log) then
      .ok (.ignore log.topics.head?)
    else if log.topics.any (fun topic => ignoredTopics.contains topic) then
      .ok (.ignore log.topics.head?)
    else
      .error ()

/-! ## Theorems: accrual math -/

/-- The earnings-accumulator market of the abort examples: only
`last_accumulator_accrual` is set. -/
def marketLateAccumulator : Market :=
  { Market.new with last_accumulator_accrual := 1 }

/-- The floating-book market of the abort examples: a well-formed rate curve
(`floating_max_utilization = WAD`) with `last_floating_debt_update = 1`. -/
def marketLateFloating : Market :=
  { Market.new with
    floating_max_utilization := 10 ^ 18,
    last_floating_debt_update := 1 }

/-- A market with one fixed pool at maturity `INTERVAL` whose
`last_accrual = 2` lies after the queried timestamp. -/
def marketLatePool : Market :=
  { Market.new with
    max_future_pools := 1,
    fixed_pools := [(INTERVAL, ⟨0, 0, 0, 2⟩)] }

/-- C5 (counterexample).  The claim states `accumulated_earnings` returns 0
whenever `Δ = t − last_accumulator_accrual ≤ 0`; at
`last_accumulator_accrual = 1, t = 0` (so `Δ = −1 ≤ 0`) the unsigned
subtraction panics instead, so the result is not `0`. -/
theorem accumulated_earnings_negative_delta_aborts :
    marketLateAccumulator.accumulated_earnings 0 ≠ some 0 ∧
    marketLateAccumulator.accumulated_earnings 0 = none := by
  decide

/-- C5 (amended).  `accumulated_earnings(m, t)` aborts (panics on the
unsigned subtraction) when `t < last_accumulator_accrual`, returns 0 when
`t = last_accumulator_accrual`, and otherwise returns
`earnings_accumulator · Δ / (Δ + mul_wad_down(smooth_factor,
INTERVAL · max_future_pools))` rounded down, with `Δ = t −
last_accumulator_accrual` and `INTERVAL = 2,419,200`. -/
theorem accumulated_earnings_characterization (m : Market) (t : ℕ) :
    m.accumulated_earnings t =
      if t < m.last_accumulator_accrual then none
      else if t = m.last_accumulator_accrual then some 0
      else
        some (mulDivDown m.earnings_accumulator (t - m.last_accumulator_accrual)
          ((t - m.last_accumulator_accrual)
            + mulWadDown m.earnings_accumulator_smooth_factor
              (INTERVAL * m.max_future_pools))) := by
  unfold Market.accumulated_earnings sub?
  rcases lt_trichotomy t m.last_accumulator_accrual with h | h | h
  · simp [h]
  · simp [h]
  · have h1 : ¬ t < m.last_accumulator_accrual := by omega
    have h2 : 0 < t - m.last_accumulator_accrual := by omega
    have h3 : t ≠ m.last_accumulator_accrual := by omega
    simp [h1, h2, h3]

/-- C10.  The three accrual functions abort (the `U256` subtraction
underflows and the process panics) on timestamps strictly earlier than the
market's recorded update times: `accumulated_earnings` before
`last_accumulator_accrual`, `total_assets` before a queried fixed pool's
`last_accrual`, and `total_floating_borrow_assets` before
`last_floating_debt_update`; no value is returned.  This witnesses that the
functions are total only under the claim's precondition. -/
theorem accrual_functions_abort_on_early_timestamp :
    (∃ (m : Market) (t : ℕ), t < m.last_accumulator_accrual ∧
      m.accumulated_earnings t = none) ∧
    (∃ (m : Market) (t : ℕ),
      (∃ mp ∈ m.fixed_pools, t < mp.2.last_accrual) ∧
      ∀ lnW : ℕ → ℤ, m.total_assets lnW t = none) ∧
    (∃ (m : Market) (t : ℕ), t < m.last_floating_debt_update ∧
      ∀ lnW : ℕ → ℤ, m.total_floating_borrow_assets lnW t = none) := by
  refine ⟨⟨marketLateAccumulator, 0, by decide, by decide⟩,
    ⟨marketLatePool, 1, ⟨(INTERVAL, ⟨0, 0, 0, 2⟩), by decide, by decide⟩,
      fun lnW => rfl⟩,
    ⟨marketLateFloating, 0, by decide, fun lnW => rfl⟩⟩

/-- The elementwise debt contribution of one fixed borrow, as the spec
states it: `principal + fee`, plus past maturity the penalty
`mul_wad_down(principal + fee, (t − maturity) · penalty_rate)`. -/
def fixedDebtContribution (penaltyRate timestamp : ℕ) (fp : FixedPosition) : ℕ :=
  let borrowed := fp.position.principal + fp.position.fee
  borrowed +
    if fp.maturity < timestamp then
      mulWadDown borrowed ((timestamp - fp.maturity) * penaltyRate)
    else 0

lemma foldl_fixedDebtStep (penaltyRate timestamp : ℕ) (l : List FixedPosition)
    (acc : ℕ) :
    l.foldl (fixedDebtStep penaltyRate timestamp) acc =
      acc + (l.map (fixedDebtContribution penaltyRate timestamp)).sum := by
  induction l generalizing acc with
  | nil => simp
  | cons fp rest ih =>
    have hstep : fixedDebtStep penaltyRate timestamp acc fp
        = acc + fixedDebtContribution penaltyRate timestamp fp := by
      unfold fixedDebtStep fixedDebtContribution
      by_cases h : fp.maturity < timestamp
      all_goals simp [h]
      all_goals omega
    rw [List.foldl_cons, hstep, ih, List.map_cons, List.sum_cons]
    omega

/-- The concrete market position of the spec's penalty seed case: one fixed
borrow of `principal = 100`, `fee = 5` (18-decimals asset), maturity 1000
seconds before the evaluation time, `penalty_rate = 1e-6` WAD per second,
adjust factor 1 WAD (nonzero, so the scan's `div_wad_up` cannot panic). -/
def penaltySeedAccount : MarketAccount :=
  ⟨0, 18, false, 0, 0, 10 ^ 18, 10 ^ 12, [⟨8000, ⟨100 * 10 ^ 18, 5 * 10 ^ 18⟩⟩]⟩

/-- C6.  In `pick_markets`, the debt a market position contributes is its
floating borrow plus, for each fixed borrow, `principal + fee`, plus — when
the maturity is strictly earlier than the evaluation timestamp — the penalty
`mul_wad_down(principal + fee, (t − maturity) · penalty_rate)`.  In
particular the seed case (`principal = 100`, `fee = 5`, 1000 s past due,
`penalty_rate = 1e-6` WAD/s) contributes `105` of debt plus an added
`0.105` of penalty. -/
theorem pick_markets_fixed_borrow_penalty :
    (∀ (ma : MarketAccount) (t : ℕ),
      ma.marketDebtAssets t =
        ma.floating_borrow_assets +
          (ma.fixed_borrow_positions.map
            (fixedDebtContribution ma.penalty_rate t)).sum) ∧
    penaltySeedAccount.marketDebtAssets 9000 =
      105 * 10 ^ 18 + 105 * 10 ^ 15 ∧
    Option.map Repay.total_value_debt
      (pick_markets [penaltySeedAccount] (fun _ => 10 ^ 18) 9000 (fun _ => 0)) =
      some (105 * 10 ^ 18 + 105 * 10 ^ 15) := by
  refine ⟨?_, by decide, by decide⟩
  intro ma t
  unfold MarketAccount.marketDebtAssets
  rw [foldl_fixedDebtStep]
  omega

lemma optBind_some {α β : Type} (a : α) (g : α → Option β) :
    ((some a : Option α) >>= g) = g a := rfl

lemma double_div_two (u : ℕ) : (u + u) / 2 = u := by omega

/-- The Simpson sum of `floating_borrow_rate` collapses on a degenerate
interval: all three terms divide by the same denominator, and
`(⌊t/x⌋ + ⌊4t/x⌋ + ⌊t/x⌋) / 6 = ⌊t/x⌋`. -/
lemma simpson_degenerate (t x : ℕ) (hx : 0 < x) :
    (t / x + 4 * t / x + t / x) / 6 = t / x := by
  have hq : t = x * (t / x) + t % x := (Nat.div_add_mod t x).symm
  have h4 : 4 * t / x = 4 * (t / x) + 4 * (t % x) / x := by
    conv_lhs => rw [hq]
    rw [show 4 * (x * (t / x) + t % x) = x * (4 * (t / x)) + 4 * (t % x) by ring,
      Nat.mul_add_div hx]
  have hr : 4 * (t % x) / x < 4 :=
    Nat.div_lt_of_lt_mul (by have := Nat.mod_lt t hx; omega)
  obtain ⟨s, hs⟩ : ∃ s, 4 * (t % x) / x = s := ⟨_, rfl⟩
  rw [hs] at h4 hr
  have hsum : t / x + 4 * t / x + t / x = 6 * (t / x) + s := by omega
  rw [hsum, Nat.mul_add_div (by norm_num),
    Nat.div_eq_of_lt (show s < 6 by omega)]
  omega

/-- C8.  On a degenerate interval `[u, u]` with `u` below the curve's
asymptote (and no overflow: the quotient and the final rate fit in an
`I256`), `floating_borrow_rate` returns exactly
`div_wad_down(floating_a, floating_max_utilization − u) + floating_b`,
independently of the `ln_wad` implementation. -/
theorem floating_borrow_rate_degenerate (lnW : ℕ → ℤ) (m : Market) (u : ℕ)
    (hu : u < m.floating_max_utilization)
    (hfit : divWadDown m.floating_a (m.floating_max_utilization - u) < 2 ^ 255)
    (hlo : 0 ≤ (divWadDown m.floating_a (m.floating_max_utilization - u) : ℤ)
      + m.floating_b)
    (hhi : (divWadDown m.floating_a (m.floating_max_utilization - u) : ℤ)
      + m.floating_b < 2 ^ 255) :
    m.floating_borrow_rate lnW u u =
      some (((divWadDown m.floating_a (m.floating_max_utilization - u) : ℤ)
        + m.floating_b).toNat) := by
  have halpha : 0 < m.floating_max_utilization - u := by omega
  have h1 : sub? m.floating_max_utilization u
      = some (m.floating_max_utilization - u) := by simp [sub?]; omega
  have h2 : sub? u u = some 0 := by simp [sub?]
  have h3 : divWadDown? 0 (m.floating_max_utilization - u) = some 0 := by
    simp [divWadDown?, divWadDown]; omega
  have h4 : divWadDown? m.floating_a (m.floating_max_utilization - u)
      = some (divWadDown m.floating_a (m.floating_max_utilization - u)) := by
    simp [divWadDown?]; omega
  have h5 : mulDivDown? m.floating_a (10 ^ 18 * 4) (m.floating_max_utilization - u)
      = some (mulDivDown m.floating_a (10 ^ 18 * 4) (m.floating_max_utilization - u)) := by
    simp [mulDivDown?]; omega
  unfold Market.floating_borrow_rate
  rw [h1]
  simp only [optBind_some]
  rw [h2]
  simp only [optBind_some]
  rw [h3]
  simp only [optBind_some]
  rw [if_pos (by norm_num : (0 : ℕ) < 10 ^ 13 * 75)]
  rw [h4]
  simp only [optBind_some]
  rw [double_div_two, h1]
  simp only [optBind_some]
  rw [h5]
  simp only [optBind_some]
  have hcollapse :
      (divWadDown m.floating_a (m.floating_max_utilization - u)
        + mulDivDown m.floating_a (10 ^ 18 * 4) (m.floating_max_utilization - u)
        + divWadDown m.floating_a (m.floating_max_utilization - u)) / 6
      = divWadDown m.floating_a (m.floating_max_utilization - u) := by
    unfold divWadDown mulDivDown WAD
    rw [show m.floating_a * (10 ^ 18 * 4) = 4 * (m.floating_a * 10 ^ 18) by ring]
    exact simpson_degenerate (m.floating_a * 10 ^ 18) _ halpha
  rw [hcollapse]
  rw [show i256ofRaw (divWadDown m.floating_a (m.floating_max_utilization - u))
      = (divWadDown m.floating_a (m.floating_max_utilization - u) : ℤ) by
    unfold i256ofRaw
    rw [if_pos hfit]]
  unfold intoRaw
  rw [Int.emod_eq_of_lt hlo (by omega)]

/-- A concrete market on the degenerate-identity path: `max_utilization`
twice WAD, `a = 1` WAD, `b = 5`. -/
def degenerateRateMarket : Market :=
  { Market.new with
    floating_max_utilization := 2 * 10 ^ 18,
    floating_a := 10 ^ 18,
    floating_b := 5 }

/-- Witness for C8: the degenerate identity evaluated at `u = WAD` on
`degenerateRateMarket` gives `a/(max_u − u) + b = 10^18 + 5`. -/
theorem floating_borrow_rate_degenerate_witness :
    degenerateRateMarket.floating_borrow_rate (fun _ => 0) (10 ^ 18) (10 ^ 18)
      = some 1000000000000000005 :=
  (floating_borrow_rate_degenerate (fun _ => 0) degenerateRateMarket (10 ^ 18)
    (by decide) (by decide) (by decide) (by decide)).trans (by decide)

/-! ## Theorems: close factor and repay caps -/

/-- The close-factor formula exactly as claim C1 states it: every division
rounds up and every multiplication rounds down — including the denominator
product `adjusted_debt · value_coll` of the ratio `ar`; the numerator
subtractions are plain. -/
def closeFactorAllMulsDown (repay : Repay) (li : LiquidationIncentive) : ℕ :=
  let targetHealth := WAD / 100 * 125
  let ar := divWadUp
    (mulWadDown repay.total_adjusted_collateral repay.total_value_debt)
    (mulWadDown repay.total_adjusted_debt repay.total_value_collateral)
  divWadUp
    (targetHealth - divWadUp repay.total_adjusted_collateral repay.total_adjusted_debt)
    (targetHealth - mulWadDown ar
      (WAD + li.liquidator + li.lenders + mulWadDown li.liquidator li.lenders))

/-- The close-factor formula as amended: identical to the claim except that
the denominator product `adjusted_debt · value_coll` of `ar` rounds UP
(`mul_wad_up`); every other multiplication rounds down, every division
rounds up, and the numerator subtractions are plain. -/
def closeFactorSpecAmended (repay : Repay) (li : LiquidationIncentive) : ℕ :=
  let targetHealth := WAD / 100 * 125
  let ar := divWadUp
    (mulWadDown repay.total_adjusted_collateral repay.total_value_debt)
    (mulWadUp repay.total_adjusted_debt repay.total_value_collateral)
  divWadUp
    (targetHealth - divWadUp repay.total_adjusted_collateral repay.total_adjusted_debt)
    (targetHealth - mulWadDown ar
      (WAD + li.liquidator + li.lenders + mulWadDown li.liquidator li.lenders))

/-- A liquidatable account snapshot on which the two rounding conventions
visibly differ: `adjusted_debt · value_coll = 4.5` WAD, so rounding it down
gives 4 and rounding it up gives 5. -/
def closeFactorSeedRepay : Repay :=
  { Repay.empty with
    total_adjusted_collateral := 4,
    total_value_debt := 10 ^ 18,
    total_adjusted_debt := 9,
    total_value_collateral := 5 * 10 ^ 17 }

def zeroIncentive : LiquidationIncentive := ⟨0, 0⟩

/-- C1 (counterexample).  On `closeFactorSeedRepay` (nonzero adjusted debt
and collateral value, no overflow or underflow anywhere) the program's
`calculate_close_factor` differs from the claim's all-multiplications-down
formula, because the source rounds the denominator product of `ar` up. -/
theorem calculate_close_factor_not_all_muls_down :
    closeFactorSeedRepay.total_adjusted_debt ≠ 0 ∧
    closeFactorSeedRepay.total_value_collateral ≠ 0 ∧
    calculate_close_factor closeFactorSeedRepay zeroIncentive
      ≠ closeFactorAllMulsDown closeFactorSeedRepay zeroIncentive := by
  decide

/-- C1 (amended).  With nonzero `total_adjusted_debt` and
`total_value_collateral`, `calculate_close_factor` equals
`(target_health − adjusted_coll/adjusted_debt) / (target_health −
ar·(WAD + liq + lenders + liq·lenders))` with `target_health = 1.25` WAD and
`ar = adjusted_coll·value_debt / (adjusted_debt·value_coll)`, where every
division rounds up, the multiplications round down EXCEPT the denominator
product `adjusted_debt·value_coll` of `ar`, which rounds up, and the
numerator subtractions are plain. -/
theorem calculate_close_factor_matches_amended_spec (repay : Repay)
    (li : LiquidationIncentive)
    (_hdebt : repay.total_adjusted_debt ≠ 0)
    (_hcoll : repay.total_value_collateral ≠ 0) :
    calculate_close_factor repay li = closeFactorSpecAmended repay li := by
  simp only [calculate_close_factor, closeFactorSpecAmended, WAD]
  norm_num

/-- Witness for C1: the amended equality evaluated on the seed snapshot. -/
theorem calculate_close_factor_matches_amended_spec_witness :
    calculate_close_factor closeFactorSeedRepay zeroIncentive
      = closeFactorSpecAmended closeFactorSeedRepay zeroIncentive :=
  calculate_close_factor_matches_amended_spec closeFactorSeedRepay zeroIncentive
    (by decide) (by decide)

lemma mulDivUp_le_mulDivUp_left {a b : ℕ} (k p : ℕ) (h : a ≤ b) :
    mulDivUp a k p ≤ mulDivUp b k p := by
  unfold mulDivUp
  exact Nat.div_le_div_right (by have := Nat.mul_le_mul_right k h; omega)

lemma mulDivUp_min_left (a b k p : ℕ) :
    mulDivUp (min a b) k p = min (mulDivUp a k p) (mulDivUp b k p) := by
  rcases le_total a b with h | h
  · rw [min_eq_left h, min_eq_left (mulDivUp_le_mulDivUp_left k p h)]
  · rw [min_eq_right h, min_eq_right (mulDivUp_le_mulDivUp_left k p h)]

/-- The three caps of `max_repay_assets` as the spec lists them: the
value-debt cap `value_debt · min(WAD, close_factor)` converted to
repay-asset units, the seize cap `market_to_seize_value / (WAD + liq +
lenders)` likewise converted, and the liquidator's ceiling (untouched above
the `U256::MAX / WAD` threshold, otherwise deflated by `WAD + lenders`);
the least of the three, clamped to `market_to_liquidate_debt`. -/
def maxRepaySpecCaps (repay : Repay) (li : LiquidationIncentive)
    (maxLiquidatorAssets : ℕ) : ℕ :=
  let closeFactor := calculate_close_factor repay li
  let valueDebtCap := mulDivUp
    (mulWadUp repay.total_value_debt (min WAD closeFactor))
    (10 ^ repay.decimals) repay.price
  let seizeCap := mulDivUp
    (divWadUp repay.market_to_seize_value (WAD + li.liquidator + li.lenders))
    (10 ^ repay.decimals) repay.price
  let liquidatorCap :=
    if maxLiquidatorAssets < maxLiquidatorThreshold then
      divWadDown maxLiquidatorAssets (WAD + li.lenders)
    else maxLiquidatorAssets
  min (min (min valueDebtCap seizeCap) liquidatorCap)
    repay.market_to_liquidate_debt

/-- C7.  With a nonzero repay-asset price, `max_repay_assets` is exactly the
least of the three caps of `maxRepaySpecCaps` clamped to
`market_to_liquidate_debt`, and in particular never exceeds
`market_to_liquidate_debt`. -/
theorem max_repay_assets_three_caps (repay : Repay)
    (li : LiquidationIncentive) (maxLiquidatorAssets : ℕ)
    (_hprice : 0 < repay.price) :
    max_repay_assets repay li maxLiquidatorAssets
      = maxRepaySpecCaps repay li maxLiquidatorAssets ∧
    max_repay_assets repay li maxLiquidatorAssets
      ≤ repay.market_to_liquidate_debt := by
  constructor
  · simp only [max_repay_assets, maxRepaySpecCaps]
    rw [mulDivUp_min_left]
  · unfold max_repay_assets
    exact min_le_right _ _

/-- The seize-cap seed snapshot of spec §8 (case 3): collateral 100 at
adjust factor 0.8, debt 1000; `market_to_seize_value = 80`. -/
def seizeCapSeedRepay : Repay :=
  { Repay.empty with
    price := 10 ^ 18,
    decimals := 18,
    market_to_seize_value := 80 * 10 ^ 18,
    market_to_liquidate_debt := 1000 * 10 ^ 18,
    total_value_collateral := 100 * 10 ^ 18,
    total_adjusted_collateral := 80 * 10 ^ 18,
    total_value_debt := 1000 * 10 ^ 18,
    total_adjusted_debt := 1111 * 10 ^ 18 }

def seedIncentive : LiquidationIncentive := ⟨5 * 10 ^ 16, 10 ^ 16⟩

/-- Witness for C7: the cap decomposition evaluated on the seize-cap seed
with incentive `(0.05, 0.01)` and an unbounded liquidator ceiling. -/
theorem max_repay_assets_three_caps_witness :
    max_repay_assets seizeCapSeedRepay seedIncentive (2 ^ 256 - 1)
      = maxRepaySpecCaps seizeCapSeedRepay seedIncentive (2 ^ 256 - 1) ∧
    max_repay_assets seizeCapSeedRepay seedIncentive (2 ^ 256 - 1)
      ≤ seizeCapSeedRepay.market_to_liquidate_debt :=
  max_repay_assets_three_caps seizeCapSeedRepay seedIncentive (2 ^ 256 - 1)
    (by decide)

/-! ## Theorems: flash-pair selection -/

/-- A plan whose collateral and repay assets differ (addresses 1 and 2). -/
def crossAssetRepay : Repay :=
  { Repay.empty with collateral_asset_address := 1, repay_asset_address := 2 }

/-- C2 (counterexample).  When the catalog has no entry for the (distinct)
pair, `get_flash_pair` returns `(collateral_asset, 0)` — not the
`(zero_address, u32::MAX)` no-route value the claim states. -/
theorem get_flash_pair_missing_pair_value :
    get_flash_pair crossAssetRepay [] [] = some (1, 0) ∧
    get_flash_pair crossAssetRepay [] [] ≠ some (0, 4294967295) := by
  decide

/-- C2 (amended).  For a `Repay` whose collateral asset differs from its
repay asset: if the catalog has an entry for the unordered pair (a
nonempty fee heap with top `fee`), `get_flash_pair` returns
`(collateral_asset, fee)` where `fee` is the least registered tier; if the
catalog has no entry for the pair, it returns `(collateral_asset, 0)`. -/
theorem get_flash_pair_cross_asset (repay : Repay)
    (tokenPairs : List ((ℕ × ℕ) × List ℕ)) (tokens : List ℕ)
    (hne : repay.collateral_asset_address ≠ repay.repay_asset_address) :
    (∀ fees fee,
      plookup (ordered_addresses repay.collateral_asset_address
        repay.repay_asset_address) tokenPairs = some fees →
      heapPeek fees = some fee →
      get_flash_pair repay tokenPairs tokens
        = some (repay.collateral_asset_address, fee) ∧
      ∀ x ∈ fees, fee ≤ x) ∧
    (plookup (ordered_addresses repay.collateral_asset_address
        repay.repay_asset_address) tokenPairs = none →
      get_flash_pair repay tokenPairs tokens
        = some (repay.collateral_asset_address, 0)) := by
  constructor
  · intro fees fee hlk hpk
    constructor
    · simp only [get_flash_pair]
      rw [if_pos hne, hlk]
      simp [hpk]
    · intro x hx
      have hmin : fees.min? = some fee := hpk
      exact (List.min?_eq_some_iff'.mp hmin).2 x hx
  · intro hlk
    simp only [get_flash_pair]
    rw [if_pos hne, hlk]

/-- The fee-tier catalog of the spec's flash-pair seed case: pools
`(1,2)@3000`, `(1,2)@500`, `(1,2)@10000`. -/
def seedTokenPairs : List ((ℕ × ℕ) × List ℕ) := [((1, 2), [3000, 500, 10000])]

/-- Witness for C2: on the seed catalog the pair `(1, 2)` resolves to the
collateral asset with the lowest fee tier 500. -/
theorem get_flash_pair_cross_asset_witness :
    (get_flash_pair crossAssetRepay seedTokenPairs []
        = some (crossAssetRepay.collateral_asset_address, 500) ∧
      ∀ x ∈ [3000, 500, 10000], 500 ≤ x) :=
  (get_flash_pair_cross_asset crossAssetRepay seedTokenPairs [] (by decide)).1
    [3000, 500, 10000] 500 (by decide) (by decide)

/-! ## Theorems: dispatcher candidate table -/

lemma tlookup_applyUpdate {α : Type} (backup : ℕ) (incoming : List (ℕ × α))
    (table : List (ℕ × α × ℕ)) (k : ℕ) :
    tlookup k (applyUpdate backup incoming table)
      = (blookup k incoming).map (fun v =>
          (v, if 0 < backup
              then ((tlookup k table).map (fun e => e.2)).getD 0 + 1
              else 0)) := by
  induction incoming with
  | nil => rfl
  | cons kv rest ih =>
    obtain ⟨k', v⟩ := kv
    have hcons : applyUpdate backup ((k', v) :: rest) table
        = (k', v,
            if 0 < backup
            then ((tlookup k' table).map (fun e => e.2)).getD 0 + 1
            else 0) :: applyUpdate backup rest table := rfl
    rw [hcons]
    by_cases h : k = k'
    · subst h
      simp [tlookup, blookup]
    · simp [tlookup, blookup, h, ih]

lemma tlookup_bumpAge_self {α : Type} (k : ℕ) (table : List (ℕ × α × ℕ)) :
    tlookup k (bumpAge k table)
      = (tlookup k table).map (fun e => (e.1, e.2 + 1)) := by
  induction table with
  | nil => rfl
  | cons e rest ih =>
    obtain ⟨k0, v0, a0⟩ := e
    have hred : bumpAge k ((k0, v0, a0) :: rest)
        = (if k0 = k then (k0, v0, a0 + 1) else (k0, v0, a0)) :: bumpAge k rest := rfl
    rw [hred]
    by_cases h : k = k0
    · subst h
      rw [if_pos rfl]
      simp [tlookup]
    · rw [if_neg (fun hh => h hh.symm)]
      simp [tlookup, h, ih]

lemma tlookup_bumpAge_ne {α : Type} (k k0 : ℕ) (table : List (ℕ × α × ℕ))
    (h : k ≠ k0) :
    tlookup k (bumpAge k0 table) = tlookup k table := by
  induction table with
  | nil => rfl
  | cons e rest ih =>
    obtain ⟨k1, v1, a1⟩ := e
    have hred : bumpAge k0 ((k1, v1, a1) :: rest)
        = (if k1 = k0 then (k1, v1, a1 + 1) else (k1, v1, a1)) :: bumpAge k0 rest := rfl
    rw [hred]
    by_cases h1 : k1 = k0
    · subst h1
      rw [if_pos rfl]
      have hk : ¬ k = k1 := fun hh => h hh
      simp [tlookup, hk, ih]
    · rw [if_neg h1]
      by_cases h2 : k = k1
      · subst h2
        simp [tlookup]
      · simp [tlookup, h2, ih]

lemma tlookup_append_ne {α : Type} (k k0 : ℕ) (table : List (ℕ × α × ℕ))
    (v : α) (a : ℕ) (h : k ≠ k0) :
    tlookup k (table ++ [(k0, v, a)]) = tlookup k table := by
  induction table with
  | nil => simp [tlookup, h]
  | cons e rest ih =>
    obtain ⟨k1, v1, a1⟩ := e
    by_cases h1 : k = k1
    · subst h1
      simp [tlookup]
    · simp [tlookup, h1, ih]

lemma tlookup_append_self {α : Type} (k : ℕ) (table : List (ℕ × α × ℕ))
    (v : α) (a : ℕ) (h : tlookup k table = none) :
    tlookup k (table ++ [(k, v, a)]) = some (v, a) := by
  induction table with
  | nil => simp [tlookup]
  | cons e rest ih =>
    obtain ⟨k1, v1, a1⟩ := e
    by_cases h1 : k = k1
    · subst h1
      simp [tlookup] at h
    · simp [tlookup, h1] at h ⊢
      exact ih h

lemma tlookup_upsertOne_ne {α : Type} (backup : ℕ)
    (table : List (ℕ × α × ℕ)) (k k0 : ℕ) (v : α) (h : k ≠ k0) :
    tlookup k (upsertOne backup table k0 v) = tlookup k table := by
  unfold upsertOne
  rcases htl : tlookup k0 table with _ | e <;>
    by_cases hb : 0 < backup <;>
      simp [htl, hb, fun t => tlookup_bumpAge_ne k k0 t h,
        tlookup_append_ne k k0 table v 0 h]

lemma tlookup_upsertOne_self {α : Type} (backup : ℕ)
    (table : List (ℕ × α × ℕ)) (k : ℕ) (v : α) :
    tlookup k (upsertOne backup table k v)
      = some ((tlookup k table).elim
          (v, if 0 < backup then 1 else 0)
          (fun e => (e.1, e.2 + if 0 < backup then 1 else 0))) := by
  unfold upsertOne
  rcases htl : tlookup k table with _ | ⟨w, a⟩
  · simp only [htl, Option.isSome_none, Bool.false_eq_true, if_false]
    by_cases hb : 0 < backup
    · simp only [hb, if_true]
      rw [tlookup_bumpAge_self, tlookup_append_self k table v 0 htl]
      simp
    · simp only [hb, if_false]
      rw [tlookup_append_self k table v 0 htl]
      simp
  · simp only [htl, Option.isSome_some, if_true]
    by_cases hb : 0 < backup
    · simp only [hb, if_true]
      rw [tlookup_bumpAge_self, htl]
      simp
    · simp only [hb, if_false, htl]
      simp

lemma tlookup_applyInsert_not_mem {α : Type} (backup : ℕ)
    (incoming : List (ℕ × α)) (table : List (ℕ × α × ℕ)) (k : ℕ)
    (h : k ∉ incoming.map Prod.fst) :
    tlookup k (applyInsert backup incoming table) = tlookup k table := by
  induction incoming generalizing table with
  | nil => rfl
  | cons kv rest ih =>
    obtain ⟨k0, v0⟩ := kv
    simp only [List.map_cons, List.mem_cons] at h
    push_neg at h
    have hstep : applyInsert backup ((k0, v0) :: rest) table
        = applyInsert backup rest (upsertOne backup table k0 v0) := rfl
    rw [hstep, ih _ h.2, tlookup_upsertOne_ne backup table k k0 v0 h.1]

lemma tlookup_applyInsert {α : Type} (backup : ℕ) (incoming : List (ℕ × α))
    (table : List (ℕ × α × ℕ)) (k : ℕ)
    (hnodup : (incoming.map Prod.fst).Nodup) :
    tlookup k (applyInsert backup incoming table)
      = match blookup k incoming with
        | none => tlookup k table
        | some v => some ((tlookup k table).elim
            (v, if 0 < backup then 1 else 0)
            (fun e => (e.1, e.2 + if 0 < backup then 1 else 0))) := by
  induction incoming generalizing table with
  | nil => rfl
  | cons kv rest ih =>
    obtain ⟨k0, v0⟩ := kv
    simp only [List.map_cons, List.nodup_cons] at hnodup
    have hstep : applyInsert backup ((k0, v0) :: rest) table
        = applyInsert backup rest (upsertOne backup table k0 v0) := rfl
    rw [hstep]
    by_cases h : k = k0
    · subst h
      rw [tlookup_applyInsert_not_mem backup rest _ k hnodup.1,
        tlookup_upsertOne_self]
      simp [blookup]
    · rw [ih _ hnodup.2]
      have hb : blookup k ((k0, v0) :: rest) = blookup k rest := by
        simp [blookup, h]
      rw [hb, tlookup_upsertOne_ne backup table k k0 v0 h]

/-- C3 (counterexample).  With backup window `B = 1`, a candidate not
previously present (the table is empty) enters with age 1 after an
`Update` — and likewise after an `Insert` — where the claim says age 0. -/
theorem new_candidate_enters_with_age_one :
    tlookup 7 (applyUpdate 1 [(7, 0)] ([] : List (ℕ × ℕ × ℕ))) = some (0, 1) ∧
    tlookup 7 (applyInsert 1 [(7, 0)] ([] : List (ℕ × ℕ × ℕ))) = some (0, 1) ∧
    (1 : ℕ) ≠ 0 := by
  decide

/-- C3 (amended).  For an inbound batch with distinct keys: an `Update`
replaces the whole table — keys absent from the batch are dropped, a
candidate already present keeps its key with age `prev_age + 1` when
`B > 0`, and a candidate not previously present enters with age 1 when
`B > 0` (0 when `B = 0`); an `Insert` upserts — keys absent from the batch
are untouched, existing candidates keep their stored snapshot with age
incremented by 1 when `B > 0` (unchanged when `B = 0`), and new candidates
enter with age 1 when `B > 0` (0 when `B = 0`). -/
theorem candidate_table_age_semantics {α : Type} (backup : ℕ)
    (incoming : List (ℕ × α)) (table : List (ℕ × α × ℕ)) (k : ℕ)
    (hnodup : (incoming.map Prod.fst).Nodup) :
    ((blookup k incoming = none →
        tlookup k (applyUpdate backup incoming table) = none) ∧
      (∀ v w a, blookup k incoming = some v → 0 < backup →
        tlookup k table = some (w, a) →
        tlookup k (applyUpdate backup incoming table) = some (v, a + 1)) ∧
      (∀ v, blookup k incoming = some v → 0 < backup →
        tlookup k table = none →
        tlookup k (applyUpdate backup incoming table) = some (v, 1)) ∧
      (∀ v, blookup k incoming = some v → backup = 0 →
        tlookup k (applyUpdate backup incoming table) = some (v, 0))) ∧
    ((blookup k incoming = none →
        tlookup k (applyInsert backup incoming table) = tlookup k table) ∧
      (∀ v w a, blookup k incoming = some v →
        tlookup k table = some (w, a) →
        tlookup k (applyInsert backup incoming table)
          = some (w, a + if 0 < backup then 1 else 0)) ∧
      (∀ v, blookup k incoming = some v →
        tlookup k table = none →
        tlookup k (applyInsert backup incoming table)
          = some (v, if 0 < backup then 1 else 0))) := by
  refine ⟨⟨?_, ?_, ?_, ?_⟩, ⟨?_, ?_, ?_⟩⟩
  · intro hb
    rw [tlookup_applyUpdate, hb]
    rfl
  · intro v w a hb hpos htl
    rw [tlookup_applyUpdate, hb, htl]
    simp [hpos]
  · intro v hb hpos htl
    rw [tlookup_applyUpdate, hb, htl]
    simp [hpos]
  · intro v hb hzero
    rw [tlookup_applyUpdate, hb]
    simp [hzero]
  · intro hb
    rw [tlookup_applyInsert backup incoming table k hnodup, hb]
  · intro v w a hb htl
    rw [tlookup_applyInsert backup incoming table k hnodup, hb, htl]
    rfl
  · intro v hb htl
    rw [tlookup_applyInsert backup incoming table k hnodup, hb, htl]
    rfl

/-- Witness for C3: backup window 2, a batch updating the single existing
candidate 7 (stored age 0): the update carries it to age 1. -/
theorem candidate_table_age_semantics_witness :
    tlookup 7 (applyUpdate 2 [(7, 5)] ([(7, 5, 0)] : List (ℕ × ℕ × ℕ)))
      = some (5, 1) :=
  (candidate_table_age_semantics 2 [(7, 5)] [(7, 5, 0)] 7
    (by decide)).1.2.1 5 5 0 (by decide) (by decide) (by decide)

/-- C4.  The idle (receive-timeout) path of the dispatcher loop fires a
liquidation only when `B == 0 ∨ age > B`; when `0 < B` and the head
candidate's age is at most `B`, the candidate is skipped as "not old
enough"; and the candidate table is never modified by a timeout step, so a
skipped candidate stays in the table. -/
theorem idle_loop_age_guard {α : Type} (backup : ℕ) (s : DState α) :
    (∀ k a, (runStep backup s Inbound.timeout).2 = Outcome.fired k a →
      backup = 0 ∨ backup < a) ∧
    (∀ k v a rest, s.iter = some ((k, v, a) :: rest) → 0 < backup →
      a ≤ backup →
      runStep backup s Inbound.timeout
        = (⟨s.table, some rest⟩, Outcome.skippedYoung k a)) ∧
    (runStep backup s Inbound.timeout).1.table = s.table := by
  obtain ⟨table, iter⟩ := s
  rcases iter with _ | entries
  · exact ⟨fun k a h => by simp [runStep] at h,
      fun k v a rest h => by simp at h, rfl⟩
  · rcases entries with _ | ⟨⟨k0, v0, a0⟩, rest0⟩
    · exact ⟨fun k a h => by simp [runStep] at h,
        fun k v a rest h => by simp at h, rfl⟩
    · refine ⟨?_, ?_, ?_⟩
      · intro k a h
        simp only [runStep] at h
        split at h
        · next hc =>
          simp only [Outcome.fired.injEq] at h
          obtain ⟨rfl, rfl⟩ := h
          omega
        · simp at h
      · intro k v a rest h hpos hage
        simp only [Option.some.injEq, List.cons.injEq, Prod.mk.injEq] at h
        obtain ⟨⟨rfl, rfl, rfl⟩, rfl⟩ := h
        simp only [runStep]
        rw [if_neg (by omega)]
      · simp only [runStep]
        split
        · rfl
        · rfl

/-- Witness for C4: with backup window 2, the head candidate of age 1 is
skipped and the table survives untouched. -/
theorem idle_loop_age_guard_witness :
    runStep 2 (⟨[(3, 9, 1)], some [(3, 9, 1)]⟩ : DState ℕ) Inbound.timeout
      = (⟨[(3, 9, 1)], some []⟩, Outcome.skippedYoung 3 1) :=
  (idle_loop_age_guard 2 ⟨[(3, 9, 1)], some [(3, 9, 1)]⟩).2.1 3 9 1 []
    rfl (by decide) (by decide)

/-! ## Theorems: event decoding -/

/-- None of the five catalog topics is (or could collide with) a decoder
signature: the three signature groups and the catalog are disjoint. -/
lemma ignoredTopics_not_sigs :
    ∀ t ∈ ignoredTopics,
      t ∉ unionEventSigs ∧ t ∉ lidoUpdateSigs ∧ t ∉ lidoIgnoreSigs := by
  decide

/-- A log whose first topic (999) is unknown everywhere but whose SECOND
topic is the first catalog constant. -/
def unknownTopicLog : RawLog :=
  ⟨[999, 0xe8ec50e5150ae28ae37e493ff389ffab7ffaec2dc4dccfca03f12a3de29d12b2]⟩

/-- C9 (counterexample).  `unknownTopicLog` matches no union, Lido, or
Ignore signature and its topic0 is not on the static catalog, so per the
claim `decode_log` must fail with `InvalidData`; but the source scans the
catalog against EVERY topic of the log, the second topic is on it, and the
log decodes to `Ignore` instead. -/
theorem decode_log_catalog_topic_not_first :
    (∀ sig ∈ unionEventSigs ++ lidoUpdateSigs ++ lidoIgnoreSigs,
      ¬ matchesSig sig unknownTopicLog) ∧
    unknownTopicLog.topics.head? = some 999 ∧
    999 ∉ ignoredTopics ∧
    decode_log unknownTopicLog
      = Except.ok (ExactlyEvent.ignore (some 999)) :=
  ⟨by decide, rfl, by decide, rfl⟩

/-- C9 (amended).  `decode_log` fails with `InvalidData` exactly when the
log matches none of the union signatures, none of the Lido price-refresh
signatures, none of the explicit Ignore signatures, AND none of the log's
topics — in any position, not only topic0 — is on the 5-topic static
catalog; and every log whose first topic is on the catalog decodes to the
`Ignore` variant instead of failing. -/
theorem decode_log_error_characterization (log : RawLog) :
    (decode_log log = Except.error () ↔
      ((∀ sig ∈ unionEventSigs ++ lidoUpdateSigs ++ lidoIgnoreSigs,
          ¬ matchesSig sig log) ∧
        ∀ topic ∈ log.topics, topic ∉ ignoredTopics)) ∧
    (∀ t0, log.topics.head? = some t0 → t0 ∈ ignoredTopics →
      decode_log log = Except.ok (ExactlyEvent.ignore (some t0))) := by
  constructor
  · rcases hfind : unionEventSigs.find? (fun sig => matchesSig sig log)
      with _ | sig
    · have hunion : ∀ sig ∈ unionEventSigs, ¬ matchesSig sig log :=
        fun sig hs => by simpa using List.find?_eq_none.mp hfind sig hs
      by_cases h1 : lidoUpdateSigs.any (fun sig => matchesSig sig log)
      · apply iff_of_false
        · simp [decode_log, hfind, h1]
        · rintro ⟨hall, -⟩
          obtain ⟨sig, hs, hm⟩ := List.any_eq_true.mp h1
          exact hall sig (by simp [hs]) hm
      · by_cases h2 : lidoIgnoreSigs.any (fun sig => matchesSig sig log)
        · apply iff_of_false
          · simp [decode_log, hfind, h1, h2]
          · rintro ⟨hall, -⟩
            obtain ⟨sig, hs, hm⟩ := List.any_eq_true.mp h2
            exact hall sig (by simp [hs]) hm
        · by_cases h3 : log.topics.any (fun topic => ignoredTopics.contains topic)
          · obtain ⟨t, ht, hmemt⟩ := List.any_eq_true.mp h3
            apply iff_of_false
            · simp [decode_log, hfind, h1, h2]
              exact ⟨t, ht, by simpa using hmemt⟩
            · rintro ⟨-, htop⟩
              exact htop t ht (by simpa using hmemt)
          · apply iff_of_true
            · simp [decode_log, hfind, h1, h2, h3]
              intro x hx hmemx
              exact h3 (List.any_eq_true.mpr ⟨x, hx, by simpa using hmemx⟩)
            · refine ⟨?_, ?_⟩
              · intro sig hs
                rcases List.mem_append.mp hs with hs' | hs'
                · rcases List.mem_append.mp hs' with hs'' | hs''
                  · exact hunion sig hs''
                  · exact fun hm => h1 (List.any_eq_true.mpr ⟨sig, hs'', hm⟩)
                · exact fun hm => h2 (List.any_eq_true.mpr ⟨sig, hs', hm⟩)
              · intro topic ht hmem
                exact h3 (List.any_eq_true.mpr ⟨topic, ht, by simpa using hmem⟩)
    · apply iff_of_false
      · simp [decode_log, hfind]
      · rintro ⟨hall, -⟩
        have hm : matchesSig sig log = true := by
          simpa using List.find?_some hfind
        exact hall sig (by simp [List.mem_of_find?_eq_some hfind]) hm
  · intro t0 h0 hmem
    have hne : ∀ sig ∈ unionEventSigs ++ lidoUpdateSigs ++ lidoIgnoreSigs,
        ¬ matchesSig sig log := by
      intro sig hs hm
      have hsig : log.topics.head? = some sig := by
        simpa [matchesSig] using hm
      rw [h0] at hsig
      obtain rfl : t0 = sig := by injection hsig
      rcases List.mem_append.mp hs with hs' | hs'
      · rcases List.mem_append.mp hs' with hs'' | hs''
        · exact (ignoredTopics_not_sigs t0 hmem).1 hs''
        · exact (ignoredTopics_not_sigs t0 hmem).2.1 hs''
      · exact (ignoredTopics_not_sigs t0 hmem).2.2 hs'
    have hfind : unionEventSigs.find? (fun sig => matchesSig sig log) = none :=
      List.find?_eq_none.mpr (fun sig hs => by
        simpa using hne sig (by simp [hs]))
    have h1 : lidoUpdateSigs.any (fun sig => matchesSig sig log) = false := by
      rw [List.any_eq_false]
      intro sig hs
      simpa using hne sig (by simp [hs])
    have h2 : lidoIgnoreSigs.any (fun sig => matchesSig sig log) = false := by
      rw [List.any_eq_false]
      intro sig hs
      simpa using hne sig (by simp [hs])
    have ht0 : t0 ∈ log.topics :=
      List.mem_of_mem_head? (by simp [Option.mem_def, h0])
    have h3 : log.topics.any (fun topic => ignoredTopics.contains topic)
        = true :=
      List.any_eq_true.mpr ⟨t0, ht0, by simpa using hmem⟩
    simp [decode_log, hfind, h1, h2, h3, h0]
    exact ⟨t0, ht0, hmem⟩

/-- Witness for C9: a log whose only topic is the first catalog constant
decodes to `Ignore` carrying that topic. -/
theorem decode_log_error_characterization_witness :
    decode_log
      ⟨[0xe8ec50e5150ae28ae37e493ff389ffab7ffaec2dc4dccfca03f12a3de29d12b2]⟩
      = Except.ok (ExactlyEvent.ignore
        (some 0xe8ec50e5150ae28ae37e493ff389ffab7ffaec2dc4dccfca03f12a3de29d12b2)) :=
  (decode_log_error_characterization
    ⟨[0xe8ec50e5150ae28ae37e493ff389ffab7ffaec2dc4dccfca03f12a3de29d12b2]⟩).2
    _ rfl (by decide)
